import Mathlib

/-!
# Verification of the Flow iCal parser and sync reconciler

This file is a shallow embedding, in Lean 4, of the core of the Flow
multi-listing OTA calendar aggregator backend (`main.py` / `schemas.py`):
the function `parse_ical` (the iCal feed parser, including the folded-line
pass and the `parse_dt` date normalizer that mirrors Python's
`datetime.strptime` for the three formats used) and the body of the
`/api/sync` handler `sync_calendars` (the purge-then-insert reconciler over
an injected fetch capability and an event store).

Machine datetimes are modelled as plain records of natural numbers with the
UTC zone attached by construction (`DateTimeUTC`), strings as Lean
`String`s, the Mongo event collection as a list of stored-event records,
and the network as a function `String → Except String String` from a URL to
either the feed text or an error message.
-/

/-- A timezone-aware UTC instant, as produced by
`datetime.strptime(...).replace(tzinfo=timezone.utc)` in the source.
All datetimes the program builds carry `timezone.utc`, so the zone is
attached by construction and only the clock fields are recorded. -/
structure DateTimeUTC where
  year : Nat
  month : Nat
  day : Nat
  hour : Nat
  minute : Nat
  second : Nat
deriving DecidableEq

/-- Numeric value of an ASCII digit character. -/
def d2n (c : Char) : Nat := c.toNat - 48

/-- Leap-year rule used by Python's `datetime` (proleptic Gregorian). -/
def isLeap (y : Nat) : Bool := (y % 4 == 0 && y % 100 != 0) || y % 400 == 0

/-- Number of days in a month, as validated by the `datetime` constructor. -/
def daysInMonth (y m : Nat) : Nat :=
  if m = 2 then (if isLeap y then 29 else 28)
  else if m = 4 ∨ m = 6 ∨ m = 9 ∨ m = 11 then 30
  else 31

/-- The `%Y` directive of Python `strptime`: exactly four digits. -/
def pY : List Char → Option (Nat × List Char)
  | a :: b :: c :: d :: rest =>
    if a.isDigit ∧ b.isDigit ∧ c.isDigit ∧ d.isDigit then
      some (d2n a * 1000 + d2n b * 100 + d2n c * 10 + d2n d, rest)
    else none
  | _ => none

/-- The `%m` directive of Python `strptime`, regex `1[0-2]|0[1-9]|[1-9]`:
all alternatives in the regex's backtracking priority order, each with the
unconsumed remainder. -/
def altsM : List Char → List (Nat × List Char)
  | a :: b :: rest =>
    (if a = '1' ∧ '0' ≤ b ∧ b ≤ '2' then [(10 + d2n b, rest)] else []) ++
    (if a = '0' ∧ '1' ≤ b ∧ b ≤ '9' then [(d2n b, rest)] else []) ++
    (if '1' ≤ a ∧ a ≤ '9' then [(d2n a, b :: rest)] else [])
  | [a] => if '1' ≤ a ∧ a ≤ '9' then [(d2n a, [])] else []
  | [] => []

/-- The `%d` directive, regex `3[01]|[12]\d|0[1-9]|[1-9]`. -/
def altsD : List Char → List (Nat × List Char)
  | a :: b :: rest =>
    (if a = '3' ∧ '0' ≤ b ∧ b ≤ '1' then [(30 + d2n b, rest)] else []) ++
    (if ('1' ≤ a ∧ a ≤ '2') ∧ b.isDigit then [(10 * d2n a + d2n b, rest)] else []) ++
    (if a = '0' ∧ '1' ≤ b ∧ b ≤ '9' then [(d2n b, rest)] else []) ++
    (if '1' ≤ a ∧ a ≤ '9' then [(d2n a, b :: rest)] else [])
  | [a] => if '1' ≤ a ∧ a ≤ '9' then [(d2n a, [])] else []
  | [] => []

/-- The `%H` directive, regex `2[0-3]|[0-1]\d|\d`. -/
def altsH : List Char → List (Nat × List Char)
  | a :: b :: rest =>
    (if a = '2' ∧ '0' ≤ b ∧ b ≤ '3' then [(20 + d2n b, rest)] else []) ++
    (if ('0' ≤ a ∧ a ≤ '1') ∧ b.isDigit then [(10 * d2n a + d2n b, rest)] else []) ++
    (if a.isDigit then [(d2n a, b :: rest)] else [])
  | [a] => if a.isDigit then [(d2n a, [])] else []
  | [] => []

/-- The `%M` directive, regex `[0-5]\d|\d`. -/
def altsMin : List Char → List (Nat × List Char)
  | a :: b :: rest =>
    (if ('0' ≤ a ∧ a ≤ '5') ∧ b.isDigit then [(10 * d2n a + d2n b, rest)] else []) ++
    (if a.isDigit then [(d2n a, b :: rest)] else [])
  | [a] => if a.isDigit then [(d2n a, [])] else []
  | [] => []

/-- The `%S` directive, regex `6[0-1]|[0-5]\d|\d` (the regex also accepts leap
seconds; the later `datetime` constructor rejects them). -/
def altsS : List Char → List (Nat × List Char)
  | a :: b :: rest =>
    (if a = '6' ∧ '0' ≤ b ∧ b ≤ '1' then [(60 + d2n b, rest)] else []) ++
    (if ('0' ≤ a ∧ a ≤ '5') ∧ b.isDigit then [(10 * d2n a + d2n b, rest)] else []) ++
    (if a.isDigit then [(d2n a, b :: rest)] else [])
  | [a] => if a.isDigit then [(d2n a, [])] else []
  | [] => []

/-- The literal `T` of the format string. `strptime` compiles its regex with
`re.IGNORECASE`, so a lowercase `t` also matches. -/
def expectT : List Char → Option (List Char)
  | c :: rest => if c = 'T' ∨ c = 't' then some rest else none
  | [] => none

/-- Sequence two alternative-enumerating matchers, preserving the regex
backtracking priority order (alternatives of the first matcher dominate). -/
def prodRests {α β γ : Type} (xs : List (α × List Char))
    (f : List Char → List (β × List Char)) (g : α → β → γ) :
    List (γ × List Char) :=
  match xs with
  | [] => []
  | p :: tl => ((f p.2).map (fun q => (g p.1 q.1, q.2))) ++ prodRests tl f g

/-- All matches of `%Y%m%d` (value and unconsumed remainder), in
backtracking priority order. -/
def pDateAlts (cs : List Char) : List ((Nat × Nat × Nat) × List Char) :=
  match pY cs with
  | none => []
  | some (y, r1) => prodRests (altsM r1) altsD (fun m d => (y, m, d))

/-- All matches of `%H%M%S`, in backtracking priority order. -/
def pTimeAlts (cs : List Char) : List ((Nat × Nat × Nat) × List Char) :=
  prodRests (altsH cs)
    (fun r => prodRests (altsMin r) altsS (fun mi s => (mi, s)))
    (fun h p => (h, p.1, p.2))

/-- Matches of `T%H%M%S` (the tail of both datetime formats). -/
def afterT (r : List Char) : List ((Nat × Nat × Nat) × List Char) :=
  match expectT r with
  | none => []
  | some r2 => pTimeAlts r2

/-- The six raw fields captured by a `%Y%m%dT%H%M%S` regex match, before
`datetime` constructor validation. -/
structure RawDT where
  ry : Nat
  rmo : Nat
  rd : Nat
  rh : Nat
  rmi : Nat
  rs : Nat
deriving DecidableEq

/-- All matches of `%Y%m%dT%H%M%S`, in backtracking priority order. -/
def pFullAlts (cs : List Char) : List (RawDT × List Char) :=
  prodRests (pDateAlts cs) afterT
    (fun d t => ⟨d.1, d.2.1, d.2.2, t.1, t.2.1, t.2.2⟩)

/-- Remainder accepted after the `%S` field in the `...Z` format: the
literal `Z` (case-insensitive, because of `re.IGNORECASE`) and then end of
string (`strptime` requires the match to span the whole input). -/
def tailZ (r : List Char) : Bool := decide (r = ['Z'] ∨ r = ['z'])

/-- Remainder accepted in the formats with no trailing literal: end of
string only. -/
def tailNil (r : List Char) : Bool := decide (r = [])

/-- Validation performed by the `datetime(year, month, day, hour, minute,
second)` constructor after the regex match. -/
def mkDT (r : RawDT) : Option DateTimeUTC :=
  if 1 ≤ r.ry ∧ r.ry ≤ 9999 ∧ 1 ≤ r.rmo ∧ r.rmo ≤ 12 ∧
     1 ≤ r.rd ∧ r.rd ≤ daysInMonth r.ry r.rmo ∧
     r.rh ≤ 23 ∧ r.rmi ≤ 59 ∧ r.rs ≤ 59
  then some ⟨r.ry, r.rmo, r.rd, r.rh, r.rmi, r.rs⟩ else none

/-- `datetime.strptime(val, "%Y%m%dT%H%M%SZ").replace(tzinfo=timezone.utc)`:
first full regex match in backtracking priority order, then constructor
validation. Returns `none` where Python raises `ValueError`. -/
def strptimeZfmt (s : String) : Option DateTimeUTC :=
  match (pFullAlts s.data).find? (fun p => tailZ p.2) with
  | some p => mkDT p.1
  | none => none

/-- `datetime.strptime(val, "%Y%m%dT%H%M%S").replace(tzinfo=timezone.utc)`. -/
def strptimeTfmt (s : String) : Option DateTimeUTC :=
  match (pFullAlts s.data).find? (fun p => tailNil p.2) with
  | some p => mkDT p.1
  | none => none

/-- `datetime.strptime(val, "%Y%m%d").replace(tzinfo=timezone.utc)`: a
date-only value, midnight UTC. -/
def strptimeDfmt (s : String) : Option DateTimeUTC :=
  match (pDateAlts s.data).find? (fun p => tailNil p.2) with
  | some p => mkDT ⟨p.1.1, p.1.2.1, p.1.2.2, 0, 0, 0⟩
  | none => none

/-- Python `val.endswith("Z")`: the last character is an uppercase `Z`. -/
def endsWithZ (val : String) : Bool :=
  match val.data.getLast? with
  | some c => c = 'Z'
  | none => false

/-- Python `"T" in val`: the value contains an uppercase `T`. -/
def containsT (val : String) : Bool := val.data.any (fun c => c = 'T')

/-- The inner `parse_dt` helper of `parse_ical` (main.py lines 71-79):
classify the raw value by shape and parse it, attaching UTC in every
branch. Returns `none` where the Python code raises (the exception is
caught at the per-event level). -/
def parse_dt (val : String) : Option DateTimeUTC :=
  if endsWithZ val then strptimeZfmt val
  else if containsT val then strptimeTfmt val
  else strptimeDfmt val

/-- Python `str.strip()` whitespace test, restricted to the ASCII
whitespace characters relevant to iCal text. -/
def isPySpace (c : Char) : Bool :=
  c = ' ' ∨ c = '\t' ∨ c = '\n' ∨ c = '\r' ∨ c = '\x0b' ∨ c = '\x0c'

/-- Python `l.strip()`: remove leading and trailing whitespace. This runs
on every physical line before the folded-line pass (main.py line 48). -/
def pyStrip (s : String) : String :=
  String.mk (((s.data.dropWhile isPySpace).reverse.dropWhile isPySpace).reverse)

/-- Helper for `splitlines`: accumulate the current line (reversed) while
scanning the character stream. -/
def splitlinesAux : List Char → List Char → List String
  | [], acc => if acc.isEmpty then [] else [String.mk acc.reverse]
  | '\r' :: '\n' :: rest, acc => String.mk acc.reverse :: splitlinesAux rest []
  | '\r' :: rest, acc => String.mk acc.reverse :: splitlinesAux rest []
  | '\n' :: rest, acc => String.mk acc.reverse :: splitlinesAux rest []
  | '\x0b' :: rest, acc => String.mk acc.reverse :: splitlinesAux rest []
  | '\x0c' :: rest, acc => String.mk acc.reverse :: splitlinesAux rest []
  | c :: rest, acc => splitlinesAux rest (c :: acc)

/-- Python `text.splitlines()` over the ASCII line boundaries (`\n`, `\r`,
`\r\n`, `\v`, `\f`); no trailing empty line is produced. -/
def splitlines (text : String) : List String := splitlinesAux text.data []

/-- Python `line.startswith(" ") or line.startswith("\t")` (main.py
line 52): the continuation-line test of the folded-line pass. -/
def startsWithSpaceOrTab (l : String) : Bool :=
  match l.data.head? with
  | some c => c = ' ' ∨ c = '\t'
  | none => false

/-- One iteration of the folded-line loop (main.py lines 51-56), with the
`unfolded` accumulator kept in reverse order: a continuation line has one
leading character removed (`line[1:]`) and is appended to the previous
logical line (`unfolded[-1] += ...`); any other line starts a new logical
line. -/
def unfoldStepR (acc : List String) (line : String) : List String :=
  if startsWithSpaceOrTab line then
    match acc with
    | [] => []
    | last :: rest => (last ++ String.mk (line.data.drop 1)) :: rest
  else line :: acc

/-- The folded-line pass: fold `unfoldStepR` over the stripped lines and
restore order. -/
def unfoldLines (lines : List String) : List String :=
  (lines.foldl unfoldStepR []).reverse

/-- Split a character list at the first occurrence of `c` (Python
`line.split(c, 1)` when `c` occurs); `none` when `c` does not occur
(Python `c in line` is false). -/
def breakAt (c : Char) : List Char → Option (List Char × List Char)
  | [] => none
  | x :: xs =>
    if x = c then some ([], xs)
    else match breakAt c xs with
      | some (a, b) => some (x :: a, b)
      | none => none

/-- Everything before the first occurrence of `c` (Python
`key.split(c)[0]`). -/
def takeUntil (c : Char) : List Char → List Char
  | [] => []
  | x :: xs => if x = c then [] else x :: takeUntil c xs

/-- Lookup in the per-event property map. The map is kept as an
association list with the most recent write at the head, so lookup
realizes the dict's last-write-wins semantics. -/
def getKey : List (String × String) → String → Option String
  | [], _ => none
  | (k, v) :: m, k0 => if k0 = k then some v else getKey m k0

/-- Python truthiness of `cur.get(key)`: the key is present and its value
is a nonempty string. -/
def truthy : Option String → Bool
  | some s => !s.isEmpty
  | none => false

/-- The key under which a `KEY[;params]:VALUE` logical line is stored
(main.py lines 100-102): the part before the first colon, truncated at the
first semicolon; `none` when the line has no colon. -/
def keyOf (l : String) : Option String :=
  (breakAt ':' l.data).map (fun p => String.mk (takeUntil ';' p.1))

/-- A parsed event record, the dict appended to `events` in `parse_ical`
(main.py lines 84-93). `end_` stands for the Python key `"end"`. -/
structure IEvent where
  uid : Option String
  title : String
  start : DateTimeUTC
  end_ : DateTimeUTC
  all_day : Bool
  location : Option String
  description : Option String
  status : Option String
deriving DecidableEq

/-- The `END:VEVENT` branch of `parse_ical` (main.py lines 65-95): emit an
event iff both `DTSTART` and `DTEND` are captured with truthy values and
both values parse; any parse failure drops the whole event (the
`try`/`except` around the block). `SUMMARY` falls back to the literal
`"(No title)"` under Python `or` truthiness. -/
def buildEvent (cur : List (String × String)) : Option IEvent :=
  if truthy (getKey cur "DTSTART") ∧ truthy (getKey cur "DTEND") then
    match getKey cur "DTSTART", getKey cur "DTEND" with
    | some start_val, some end_val =>
      match parse_dt start_val, parse_dt end_val with
      | some ds, some de =>
        some { uid := getKey cur "UID"
               title := match getKey cur "SUMMARY" with
                        | some s => if s.isEmpty then "(No title)" else s
                        | none => "(No title)"
               start := ds
               end_ := de
               all_day := start_val.length == 8 && !containsT start_val
               location := getKey cur "LOCATION"
               description := getKey cur "DESCRIPTION"
               status := getKey cur "STATUS" }
      | _, _ => none
    | _, _ => none
  else none

/-- The mutable state of the event-block scan loop in `parse_ical`
(main.py lines 58-59): emitted events so far, the current property map,
and the `in_event` flag. -/
structure ScanSt where
  events : List IEvent
  cur : List (String × String)
  in_event : Bool
deriving DecidableEq

/-- One iteration of the block-scan loop (main.py lines 60-103). -/
def scanStep (st : ScanSt) (line : String) : ScanSt :=
  if line = "BEGIN:VEVENT" then { st with in_event := true, cur := [] }
  else if line = "END:VEVENT" then
    { events := match buildEvent st.cur with
                | some e => st.events ++ [e]
                | none => st.events
      cur := []
      in_event := false }
  else if st.in_event then
    match breakAt ':' line.data with
    | some (k, v) => { st with cur := (String.mk (takeUntil ';' k), String.mk v) :: st.cur }
    | none => st
  else st

/-- The pure body of `parse_ical` on the physical lines of the feed text:
strip every line, run the folded-line pass, then scan for event blocks. -/
def parse_ical_lines (rawLines : List String) : List IEvent :=
  ((unfoldLines (rawLines.map pyStrip)).foldl scanStep ⟨[], [], false⟩).events

/-- The pure part of `parse_ical` (main.py lines 45-105): everything after
the feed text has been fetched. -/
def parse_ical (text : String) : List IEvent :=
  parse_ical_lines (splitlines text)

/-- Helper for `vblocks`: scan logical lines carrying the current open
block's lines in reverse order (`none` when no block is open). -/
def vblocksAux : List String → Option (List String) → List (List String)
  | [], _ => []
  | l :: ls, cur =>
    if l = "BEGIN:VEVENT" then vblocksAux ls (some [])
    else if l = "END:VEVENT" then
      match cur with
      | some b => b.reverse :: vblocksAux ls none
      | none => vblocksAux ls none
    else
      match cur with
      | some b => vblocksAux ls (some (l :: b))
      | none => vblocksAux ls none

/-- The `VEVENT` blocks of a sequence of logical lines: for every
`END:VEVENT` that closes a block opened by the most recent `BEGIN:VEVENT`,
the lines strictly between the two markers. -/
def vblocks (ls : List String) : List (List String) := vblocksAux ls none

/-- The property map captured from a block's lines: every line containing
a colon is split at the first colon, the key truncated at the first
semicolon, later writes shadowing earlier ones. -/
def blockProps (ls : List String) : List (String × String) :=
  ls.foldl
    (fun cur line =>
      match breakAt ':' line.data with
      | some (k, v) => (String.mk (takeUntil ';' k), String.mk v) :: cur
      | none => cur)
    []

/-- The per-block emission test stated by the spec: the block captured
truthy `DTSTART` and `DTEND` values and both parse under the
date-normalization rules. -/
def hasParseableStartEnd (cur : List (String × String)) : Bool :=
  truthy (getKey cur "DTSTART") && truthy (getKey cur "DTEND") &&
  (getKey cur "DTSTART").all (fun v => (parse_dt v).isSome) &&
  (getKey cur "DTEND").all (fun v => (parse_dt v).isSome)

/-- A resolved calendar-source document, as read back from the
`calendarsource` collection inside `sync_calendars` (schemas.py
`CalendarSource` plus the stored `_id`). -/
structure CalendarSource where
  id : String
  listing_id : String
  name : String
  url : String
deriving DecidableEq

/-- A document of the `event` collection: the `Event` model of schemas.py
plus the `created_at`/`updated_at` audit stamps added by `sync_calendars`
(main.py lines 226-240). -/
structure StoredEvent where
  listing_id : String
  source_id : String
  uid : Option String
  title : String
  start : DateTimeUTC
  end_ : DateTimeUTC
  all_day : Bool
  location : Option String
  description : Option String
  status : Option String
  raw_url : Option String
  created_at : Nat
  updated_at : Nat
deriving DecidableEq

/-- The `Event` fields of a stored record, without the audit timestamps:
the event content proper. -/
structure EventData where
  listing_id : String
  source_id : String
  uid : Option String
  title : String
  start : DateTimeUTC
  end_ : DateTimeUTC
  all_day : Bool
  location : Option String
  description : Option String
  status : Option String
  raw_url : Option String
deriving DecidableEq

/-- Forget the audit timestamps of a stored record. -/
def eventContent (e : StoredEvent) : EventData :=
  ⟨e.listing_id, e.source_id, e.uid, e.title, e.start, e.end_, e.all_day,
   e.location, e.description, e.status, e.raw_url⟩

/-- Construction of one stored record from a parsed event (main.py lines
226-240): stamp the source's listing/source identifiers and feed URL, fall
back to the source's display name when the parsed title is falsy (Python
`e.get("title") or s.get("name")`), and stamp the current instant `now`
into both audit fields. -/
def mkStored (now : Nat) (s : CalendarSource) (e : IEvent) : StoredEvent :=
  { listing_id := s.listing_id
    source_id := s.id
    uid := e.uid
    title := if e.title.isEmpty then s.name else e.title
    start := e.start
    end_ := e.end_
    all_day := e.all_day
    location := e.location
    description := e.description
    status := e.status
    raw_url := some s.url
    created_at := now
    updated_at := now }

/-- `db["event"].delete_many({"source_id": sid})` (main.py line 222): keep
exactly the events of other sources. -/
def purgeEvents (evs : List StoredEvent) (sid : String) : List StoredEvent :=
  evs.filter (fun e => decide (e.source_id ≠ sid))

/-- The per-source loop of `sync_calendars` (main.py lines 217-244) over
the already-resolved sources, an injected fetch capability, and the event
store. Per source: purge, then fetch (`parse_ical` downloads the URL and
raises `HTTPException(400, "Failed to fetch iCal: ...")` on any fetch
failure, main.py lines 39-43 — note the purge has already happened), then
parse, then insert the batch if nonempty. An exception propagates
immediately, leaving the store as mutated so far. Returns the final store
and either the error detail or `total_events`. -/
def syncLoop (fetch : String → Except String String) (now : Nat) :
    List CalendarSource → List StoredEvent → Nat →
    List StoredEvent × Except String Nat
  | [], st, total => (st, .ok total)
  | s :: rest, st, total =>
    let st1 := purgeEvents st s.id
    match fetch s.url with
    | .error e => (st1, .error ("Failed to fetch iCal: " ++ e))
    | .ok text =>
      let batch := (parse_ical text).map (mkStored now s)
      if batch.isEmpty then syncLoop fetch now rest st1 total
      else syncLoop fetch now rest (st1 ++ batch) (total + batch.length)

/-- The body of `sync_calendars` after source resolution (main.py lines
216-246): run the loop and report `{sources_synced, events_saved}` on
success. -/
def sync_calendars (fetch : String → Except String String) (now : Nat)
    (sources : List CalendarSource) (st : List StoredEvent) :
    List StoredEvent × Except String (Nat × Nat) :=
  match syncLoop fetch now sources st 0 with
  | (st', .ok total) => (st', .ok (sources.length, total))
  | (st', .error e) => (st', .error e)

/-- The batch a source would contribute: fetch its URL and map the parsed
events through `mkStored` (empty when the fetch fails, a case the lemmas
exclude by hypothesis). -/
def batchOf (fetch : String → Except String String) (now : Nat)
    (s : CalendarSource) : List StoredEvent :=
  match fetch s.url with
  | .ok text => (parse_ical text).map (mkStored now s)
  | .error _ => []

/-- Concatenation of all per-source batches, in source order. -/
def allBatches (fetch : String → Except String String) (now : Nat) :
    List CalendarSource → List StoredEvent
  | [] => []
  | s :: rest => batchOf fetch now s ++ allBatches fetch now rest

/-- The identifiers of a source list. -/
def srcIds (sources : List CalendarSource) : List String :=
  sources.map (fun s => s.id)

/-- Concrete fixtures used by the closed witness and counterexample
theorems below. -/
def exSourceA : CalendarSource := ⟨"s1", "l1", "Airbnb", "http://feed-a"⟩

/-- A second source, used as the successfully-synced predecessor in the
multi-source abort scenario. -/
def exSourceB : CalendarSource := ⟨"s2", "l1", "Booking", "http://feed-b"⟩

/-- A one-event feed with a summary. -/
def exFeed : String :=
  "BEGIN:VEVENT\nSUMMARY:Guest\nDTSTART:20240115T090000Z\nDTEND:20240116T100000Z\nEND:VEVENT"

/-- A one-event feed whose block has no `SUMMARY` property. -/
def exFeedNoSummary : String :=
  "BEGIN:VEVENT\nDTSTART:20240115\nDTEND:20240116\nEND:VEVENT"

/-- A fetch capability for which every URL resolves to `exFeed`. -/
def exFetchOk : String → Except String String := fun _ => .ok exFeed

/-- A fetch capability for which every URL fails. -/
def exFetchFail : String → Except String String := fun _ => .error "boom"

/-- A fetch capability under which `exSourceB` succeeds and `exSourceA`
fails with a requests-style message naming the URL. -/
def exFetchMix : String → Except String String := fun u =>
  if u = "http://feed-b" then .ok exFeed
  else .error "500 Server Error for url: http://feed-a"

/-- A previously stored event belonging to `exSourceA`. -/
def exStored0 : StoredEvent :=
  ⟨"l1", "s1", none, "Old", ⟨2024, 1, 1, 0, 0, 0⟩, ⟨2024, 1, 2, 0, 0, 0⟩,
   false, none, none, none, none, 0, 0⟩

/-- The property map a block with `DTSTART:20240115` and `DTEND:20240116`
and no `SUMMARY` accumulates (most recent write first). -/
def exCurNoSummary : List (String × String) :=
  [("DTEND", "20240116"), ("DTSTART", "20240115")]

/-- The event `buildEvent` emits from `exCurNoSummary`. -/
def exEventNoSummary : IEvent :=
  ⟨none, "(No title)", ⟨2024, 1, 15, 0, 0, 0⟩, ⟨2024, 1, 16, 0, 0, 0⟩,
   true, none, none, none⟩

/-- A property map whose `DTSTART` is a naive (no `Z`) datetime value. -/
def exCurNaive : List (String × String) :=
  [("DTEND", "20240115T100000Z"), ("DTSTART", "20240115T090000")]

/-- The event `buildEvent` emits from `exCurNaive`. -/
def exEventNaive : IEvent :=
  ⟨none, "(No title)", ⟨2024, 1, 15, 9, 0, 0⟩, ⟨2024, 1, 15, 10, 0, 0⟩,
   false, none, none, none⟩

/-- A mid-block scan state holding a captured `SUMMARY`. -/
def exStAlarm : ScanSt := ⟨[], [("SUMMARY", "x")], true⟩

/-- A fetch capability for which every URL resolves to the feed without a
`SUMMARY`. -/
def exFetchNoSummary : String → Except String String := fun _ => .ok exFeedNoSummary

/-- The event `parse_ical` emits from `exFeed`. -/
def exParsedGuest : IEvent :=
  ⟨none, "Guest", ⟨2024, 1, 15, 9, 0, 0⟩, ⟨2024, 1, 16, 10, 0, 0⟩,
   false, none, none, none⟩

theorem length_filterMap_eq {α β : Type} (l : List α) (f : α → Option β) :
    (l.filterMap f).length = (l.filter (fun b => (f b).isSome)).length := by
  induction l with
  | nil => rfl
  | cons a t ih =>
    cases h : f a <;> simp [List.filterMap_cons, List.filter_cons, h, ih]

theorem find?_congr_fun {α : Type} (p q : α → Bool) (h : ∀ a, p a = q a)
    (l : List α) : l.find? p = l.find? q := by
  rw [funext h]

theorem buildEvent_nil : buildEvent [] = none := rfl

theorem blockProps_append_line (p : List String) (l : String) :
    blockProps (p ++ [l]) =
      match breakAt ':' l.data with
      | some (k, v) => (String.mk (takeUntil ';' k), String.mk v) :: blockProps p
      | none => blockProps p := by
  simp only [blockProps, List.foldl_append, List.foldl_cons, List.foldl_nil]

theorem scan_vblocks_aux (ls : List String) :
    (∀ evs : List IEvent,
        ((ls.foldl scanStep ⟨evs, [], false⟩).events) =
          evs ++ (vblocksAux ls none).filterMap (fun b => buildEvent (blockProps b)))
  ∧ (∀ (evs : List IEvent) (p : List String),
        ((ls.foldl scanStep ⟨evs, blockProps p, true⟩).events) =
          evs ++ (vblocksAux ls (some p.reverse)).filterMap
            (fun b => buildEvent (blockProps b))) := by
  induction ls with
  | nil => simp [vblocksAux]
  | cons l ls ih =>
    by_cases hb : l = "BEGIN:VEVENT"
    · constructor
      · intro evs
        have h1 : scanStep ⟨evs, [], false⟩ l = ⟨evs, blockProps [], true⟩ := by
          simp [scanStep, hb, blockProps]
        simp only [List.foldl_cons, h1, ih.2 evs []]
        simp [vblocksAux, hb]
      · intro evs p
        have h1 : scanStep ⟨evs, blockProps p, true⟩ l = ⟨evs, blockProps [], true⟩ := by
          simp [scanStep, hb, blockProps]
        simp only [List.foldl_cons, h1, ih.2 evs []]
        simp [vblocksAux, hb]
    · by_cases he : l = "END:VEVENT"
      · constructor
        · intro evs
          have h1 : scanStep ⟨evs, [], false⟩ l = ⟨evs, [], false⟩ := by
            simp [scanStep, hb, he, buildEvent_nil]
          simp only [List.foldl_cons, h1, ih.1 evs]
          simp [vblocksAux, hb, he]
        · intro evs p
          have h1 : scanStep ⟨evs, blockProps p, true⟩ l =
              ⟨(match buildEvent (blockProps p) with
                 | some e => evs ++ [e]
                 | none => evs), [], false⟩ := by
            simp [scanStep, hb, he]
          simp only [List.foldl_cons, h1]
          cases hbe : buildEvent (blockProps p) with
          | none =>
            simp only [hbe, ih.1]
            simp [vblocksAux, hb, he, hbe]
          | some e =>
            simp only [hbe, ih.1]
            simp [vblocksAux, hb, he, hbe]
      · constructor
        · intro evs
          have h1 : scanStep ⟨evs, [], false⟩ l = ⟨evs, [], false⟩ := by
            simp [scanStep, hb, he]
          simp only [List.foldl_cons, h1, ih.1 evs]
          cases hc : breakAt ':' l.data <;> simp [vblocksAux, hb, he, hc]
        · intro evs p
          have hrev : (p ++ [l]).reverse = l :: p.reverse := by simp
          cases hc : breakAt ':' l.data with
          | none =>
            have h1 : scanStep ⟨evs, blockProps p, true⟩ l =
                ⟨evs, blockProps (p ++ [l]), true⟩ := by
              rw [blockProps_append_line, hc]
              simp [scanStep, hb, he, hc]
            simp only [List.foldl_cons, h1, ih.2 evs (p ++ [l]), hrev]
            simp [vblocksAux, hb, he]
          | some kv =>
            have h1 : scanStep ⟨evs, blockProps p, true⟩ l =
                ⟨evs, blockProps (p ++ [l]), true⟩ := by
              rw [blockProps_append_line, hc]
              simp [scanStep, hb, he, hc]
            simp only [List.foldl_cons, h1, ih.2 evs (p ++ [l]), hrev]
            simp [vblocksAux, hb, he]

theorem parse_lines_eq (raw : List String) :
    parse_ical_lines raw =
      (vblocks (unfoldLines (raw.map pyStrip))).filterMap
        (fun b => buildEvent (blockProps b)) := by
  have := (scan_vblocks_aux (unfoldLines (raw.map pyStrip))).1 []
  simpa [parse_ical_lines, vblocks] using this

theorem head?_dropWhile_false {p : Char → Bool} {l : List Char} {c : Char}
    (h : (l.dropWhile p).head? = some c) : p c = false := by
  induction l with
  | nil => simp [List.dropWhile] at h
  | cons a t ih =>
    by_cases hp : p a
    · rw [List.dropWhile_cons_of_pos hp] at h
      exact ih h
    · rw [List.dropWhile_cons_of_neg hp] at h
      simp at h
      simp only [Bool.not_eq_true] at hp
      rw [← h]
      exact hp

theorem head?_of_pfx {l2 l1 : List Char} {c : Char}
    (hpre : l2 <+: l1) (h : l2.head? = some c) : l1.head? = some c := by
  obtain ⟨t, ht⟩ := hpre
  cases l2 with
  | nil => simp at h
  | cons a t2 =>
    simp at h
    rw [← ht]
    simp [h]

theorem pyStrip_not_continuation (s : String) :
    startsWithSpaceOrTab (pyStrip s) = false := by
  have hdata : (pyStrip s).data =
      ((s.data.dropWhile isPySpace).reverse.dropWhile isPySpace).reverse := rfl
  unfold startsWithSpaceOrTab
  rw [hdata]
  have h1 : (s.data.dropWhile isPySpace).reverse.dropWhile isPySpace <:+
      (s.data.dropWhile isPySpace).reverse := List.dropWhile_suffix _
  have hpre : ((s.data.dropWhile isPySpace).reverse.dropWhile isPySpace).reverse <+:
      s.data.dropWhile isPySpace := by
    have h2 := List.reverse_prefix.2 h1
    simpa using h2
  cases hh : (((s.data.dropWhile isPySpace).reverse.dropWhile isPySpace).reverse).head? with
  | none => simp [hh]
  | some c =>
    have hc : isPySpace c = false := head?_dropWhile_false (head?_of_pfx hpre hh)
    simp only [isPySpace, decide_eq_false_iff_not] at hc
    push_neg at hc
    simp [hh, hc.1, hc.2.1]

theorem foldl_unfoldStepR_id {ls : List String}
    (h : ∀ l ∈ ls, startsWithSpaceOrTab l = false) :
    ∀ acc, ls.foldl unfoldStepR acc = ls.reverse ++ acc := by
  induction ls with
  | nil => intro acc; simp
  | cons a t ih =>
    intro acc
    have ha : startsWithSpaceOrTab a = false := h a (by simp)
    have hstep : unfoldStepR acc a = a :: acc := by
      simp [unfoldStepR, ha]
    simp only [List.foldl_cons, hstep]
    rw [ih (fun l hl => h l (by simp [hl]))]
    simp

theorem unfoldLines_after_strip_id (raw : List String) :
    unfoldLines (raw.map pyStrip) = raw.map pyStrip := by
  unfold unfoldLines
  rw [foldl_unfoldStepR_id (fun l hl => ?_) []]
  · simp
  · obtain ⟨x, _, hx⟩ := List.mem_map.1 hl
    rw [← hx]
    exact pyStrip_not_continuation x

/-- C1: the claim states that folded property lines are reconstructed by
stripping one leading whitespace character from each continuation line and
appending the remainder to the previous logical line, so that a folded
feed parses identically to its unfolded form. The code violates this: it
strips every physical line (main.py line 48) before the continuation test
(line 52), so no line ever begins with whitespace, the fold branch is
unreachable, and folded content is lost. The first two conjuncts evaluate
the code on a feed with `SUMMARY:AB` folded with a ` CD` continuation line
(title stays `"AB"`) and on its unfolded equivalent `SUMMARY:ABCD` (title
`"ABCD"`); the third proves the fold pass is the identity on every
stripped line sequence. -/
theorem folded_lines_lost_after_strip :
    ((parse_ical "BEGIN:VCALENDAR\r\nBEGIN:VEVENT\r\nSUMMARY:AB\r\n CD\r\nDTSTART:20240115\r\nDTEND:20240116\r\nEND:VEVENT\r\nEND:VCALENDAR").map
        (fun e => e.title) = ["AB"]) ∧
    ((parse_ical "BEGIN:VCALENDAR\r\nBEGIN:VEVENT\r\nSUMMARY:ABCD\r\nDTSTART:20240115\r\nDTEND:20240116\r\nEND:VEVENT\r\nEND:VCALENDAR").map
        (fun e => e.title) = ["ABCD"]) ∧
    ∀ raw : List String, unfoldLines (raw.map pyStrip) = raw.map pyStrip :=
  ⟨rfl, rfl, unfoldLines_after_strip_id⟩

theorem buildEvent_isSome (cur : List (String × String)) :
    (buildEvent cur).isSome = hasParseableStartEnd cur := by
  unfold buildEvent hasParseableStartEnd
  cases hs : getKey cur "DTSTART" with
  | none => simp [truthy]
  | some sv =>
    cases he : getKey cur "DTEND" with
    | none => simp [truthy]
    | some ev =>
      cases t1 : truthy (some sv)
      · simp [t1]
      · cases t2 : truthy (some ev)
        · simp [t1, t2]
        · simp only [t1, t2, and_self, if_true, if_pos trivial]
          cases p1 : parse_dt sv <;> cases p2 : parse_dt ev <;>
            simp [p1, p2, Option.all]

/-- C6: `parse_ical` is total over its text input — it is a function on
all of `String` — and its output is exactly the per-block results of the
document: every `VEVENT` block whose property map builds an event
contributes that event in document order, and a malformed block (one on
which `buildEvent` returns `none`, e.g. an unparseable date value) is
skipped by the `filterMap` while sibling well-formed blocks still appear. -/
theorem parse_ical_total_and_skips_malformed (text : String) :
    parse_ical text =
      (vblocks (unfoldLines ((splitlines text).map pyStrip))).filterMap
        (fun b => buildEvent (blockProps b)) :=
  parse_lines_eq (splitlines text)

/-- C3: for every input text, the number of events `parse_ical` emits
equals the number of `VEVENT` blocks whose captured `DTSTART` and `DTEND`
values are both truthy and both parse under the date-normalization rules
(`hasParseableStartEnd`); a block missing either value, or whose value
fails to parse, contributes no event. -/
theorem parse_ical_count_eq_qualifying_blocks (text : String) :
    (parse_ical text).length =
      ((vblocks (unfoldLines ((splitlines text).map pyStrip))).filter
          (fun b => hasParseableStartEnd (blockProps b))).length := by
  rw [show parse_ical text = parse_ical_lines (splitlines text) from rfl,
    parse_lines_eq (splitlines text), length_filterMap_eq]
  have hfe : (fun b => (buildEvent (blockProps b)).isSome) =
      (fun b => hasParseableStartEnd (blockProps b)) :=
    funext (fun b => buildEvent_isSome (blockProps b))
  rw [hfe]

/-- C9: a block whose `DTSTART` or `DTEND` property is present but has an
empty value emits no event — the guard tests the captured values for
Python truthiness, not key presence, so the empty string counts as
missing. -/
theorem empty_date_value_emits_no_event (cur : List (String × String))
    (h : getKey cur "DTSTART" = some "" ∨ getKey cur "DTEND" = some "") :
    buildEvent cur = none := by
  have ht : truthy (some "") = false := rfl
  unfold buildEvent
  rcases h with h | h
  · rw [h]
    simp [ht]
  · rw [h]
    simp [ht]

/-- Closed witness for the empty-value claim: a block capturing
`DTSTART:20240115` and a bare `DTEND:` emits nothing. -/
theorem empty_date_value_emits_no_event_witness :
    buildEvent [("DTSTART", "20240115"), ("DTEND", "")] = none :=
  empty_date_value_emits_no_event [("DTSTART", "20240115"), ("DTEND", "")]
    (Or.inr rfl)

set_option maxRecDepth 2048

theorem pY_appendZ (cs : List Char) :
    pY (cs ++ ['Z']) = (pY cs).map (fun p => (p.1, p.2 ++ ['Z'])) := by
  have cz : ¬(('Z' : Char).isDigit = true) := by decide
  rcases cs with _ | ⟨a, _ | ⟨b, _ | ⟨c, _ | ⟨d, rest⟩⟩⟩⟩
  · decide
  · simp [pY, cz]
  · simp [pY, cz]
  · simp [pY, cz]
  · simp [pY, apply_ite]

theorem altsM_appendZ (cs : List Char) :
    altsM (cs ++ ['Z']) = (altsM cs).map (fun p => (p.1, p.2 ++ ['Z'])) := by
  have c1 : ¬(('Z' : Char) ≤ '2') := by decide
  have c2 : ¬(('Z' : Char) ≤ '9') := by decide
  rcases cs with _ | ⟨a, _ | ⟨b, rest⟩⟩
  · decide
  · show altsM [a, 'Z'] = _
    simp only [altsM]
    rw [if_neg (fun h => c1 h.2.2), if_neg (fun h => c2 h.2.2)]
    by_cases h : '1' ≤ a ∧ a ≤ '9' <;> simp [h]
  · show altsM (a :: b :: (rest ++ ['Z'])) = _
    simp only [altsM, List.map_append, apply_ite]
    simp

theorem altsD_appendZ (cs : List Char) :
    altsD (cs ++ ['Z']) = (altsD cs).map (fun p => (p.1, p.2 ++ ['Z'])) := by
  have c1 : ¬(('Z' : Char) ≤ '1') := by decide
  have c2 : ¬(('Z' : Char) ≤ '9') := by decide
  have cz : ¬(('Z' : Char).isDigit = true) := by decide
  rcases cs with _ | ⟨a, _ | ⟨b, rest⟩⟩
  · decide
  · show altsD [a, 'Z'] = _
    simp only [altsD]
    rw [if_neg (fun h => c1 h.2.2), if_neg (fun h => cz h.2),
      if_neg (fun h => c2 h.2.2)]
    by_cases h : '1' ≤ a ∧ a ≤ '9' <;> simp [h]
  · show altsD (a :: b :: (rest ++ ['Z'])) = _
    simp only [altsD, List.map_append, apply_ite]
    simp

theorem altsH_appendZ (cs : List Char) :
    altsH (cs ++ ['Z']) = (altsH cs).map (fun p => (p.1, p.2 ++ ['Z'])) := by
  have c1 : ¬(('Z' : Char) ≤ '3') := by decide
  have cz : ¬(('Z' : Char).isDigit = true) := by decide
  rcases cs with _ | ⟨a, _ | ⟨b, rest⟩⟩
  · decide
  · show altsH [a, 'Z'] = _
    simp only [altsH]
    rw [if_neg (fun h => c1 h.2.2), if_neg (fun h => cz h.2)]
    by_cases h : a.isDigit <;> simp [h]
  · show altsH (a :: b :: (rest ++ ['Z'])) = _
    simp only [altsH, List.map_append, apply_ite]
    simp

theorem altsMin_appendZ (cs : List Char) :
    altsMin (cs ++ ['Z']) = (altsMin cs).map (fun p => (p.1, p.2 ++ ['Z'])) := by
  have cz : ¬(('Z' : Char).isDigit = true) := by decide
  rcases cs with _ | ⟨a, _ | ⟨b, rest⟩⟩
  · decide
  · show altsMin [a, 'Z'] = _
    simp only [altsMin]
    rw [if_neg (fun h => cz h.2)]
    by_cases h : a.isDigit <;> simp [h]
  · show altsMin (a :: b :: (rest ++ ['Z'])) = _
    simp only [altsMin, List.map_append, apply_ite]
    simp

theorem altsS_appendZ (cs : List Char) :
    altsS (cs ++ ['Z']) = (altsS cs).map (fun p => (p.1, p.2 ++ ['Z'])) := by
  have c1 : ¬(('Z' : Char) ≤ '1') := by decide
  have cz : ¬(('Z' : Char).isDigit = true) := by decide
  rcases cs with _ | ⟨a, _ | ⟨b, rest⟩⟩
  · decide
  · show altsS [a, 'Z'] = _
    simp only [altsS]
    rw [if_neg (fun h => c1 h.2.2), if_neg (fun h => cz h.2)]
    by_cases h : a.isDigit <;> simp [h]
  · show altsS (a :: b :: (rest ++ ['Z'])) = _
    simp only [altsS, List.map_append, apply_ite]
    simp

theorem expectT_appendZ (cs : List Char) :
    expectT (cs ++ ['Z']) = (expectT cs).map (fun r => r ++ ['Z']) := by
  rcases cs with _ | ⟨c, rest⟩
  · decide
  · by_cases h : c = 'T' ∨ c = 't' <;> simp [expectT, h]

theorem prodRests_appendZ {α β γ : Type} (xs : List (α × List Char))
    (f : List Char → List (β × List Char)) (g : α → β → γ)
    (hf : ∀ r, f (r ++ ['Z']) = (f r).map (fun q => (q.1, q.2 ++ ['Z']))) :
    prodRests (xs.map (fun p => (p.1, p.2 ++ ['Z']))) f g =
      (prodRests xs f g).map (fun q => (q.1, q.2 ++ ['Z'])) := by
  induction xs with
  | nil => rfl
  | cons p tl ih =>
    simp only [List.map_cons, prodRests, ih, hf p.2, List.map_append, List.map_map]
    rfl

theorem pDateAlts_appendZ (cs : List Char) :
    pDateAlts (cs ++ ['Z']) = (pDateAlts cs).map (fun p => (p.1, p.2 ++ ['Z'])) := by
  unfold pDateAlts
  rw [pY_appendZ]
  cases hpy : pY cs with
  | none => rfl
  | some yr =>
    simp only [Option.map_some']
    rw [altsM_appendZ, prodRests_appendZ _ _ _ altsD_appendZ]

theorem pTimeAlts_appendZ (cs : List Char) :
    pTimeAlts (cs ++ ['Z']) = (pTimeAlts cs).map (fun p => (p.1, p.2 ++ ['Z'])) := by
  unfold pTimeAlts
  rw [altsH_appendZ, prodRests_appendZ]
  intro r
  rw [altsMin_appendZ, prodRests_appendZ _ _ _ altsS_appendZ]

theorem afterT_appendZ (r : List Char) :
    afterT (r ++ ['Z']) = (afterT r).map (fun p => (p.1, p.2 ++ ['Z'])) := by
  unfold afterT
  rw [expectT_appendZ]
  cases expectT r with
  | none => rfl
  | some r2 =>
    simp only [Option.map_some']
    exact pTimeAlts_appendZ r2

theorem pFullAlts_appendZ (cs : List Char) :
    pFullAlts (cs ++ ['Z']) = (pFullAlts cs).map (fun p => (p.1, p.2 ++ ['Z'])) := by
  unfold pFullAlts
  rw [pDateAlts_appendZ, prodRests_appendZ _ _ _ afterT_appendZ]

theorem tailZ_appendZ (r : List Char) : tailZ (r ++ ['Z']) = tailNil r := by
  rcases r with _ | ⟨c, t⟩
  · decide
  · simp [tailZ, tailNil]

theorem strptime_naive_as_utc (s : String) :
    strptimeZfmt (s ++ "Z") = strptimeTfmt s := by
  have hdata : (s ++ "Z").data = s.data ++ ['Z'] := String.data_append s "Z"
  unfold strptimeZfmt strptimeTfmt
  rw [hdata, pFullAlts_appendZ, List.find?_map]
  have hcong := find?_congr_fun
    ((fun p => tailZ p.2) ∘ (fun p : RawDT × List Char => (p.1, p.2 ++ ['Z'])))
    (fun p => tailNil p.2)
    (fun p => by simpa [Function.comp] using tailZ_appendZ p.2)
    (pFullAlts s.data)
  rw [hcong]
  cases (pFullAlts s.data).find? (fun p => tailNil p.2) with
  | none => rfl
  | some p => simp only [Option.map_some']

theorem altsM_rest_length {cs : List Char} {p : Nat × List Char}
    (hp : p ∈ altsM cs) : p.2.length + 1 ≤ cs.length := by
  rcases cs with _ | ⟨a, _ | ⟨b, rest⟩⟩
  · simp [altsM] at hp
  · simp only [altsM] at hp
    split_ifs at hp <;> simp_all
  · simp only [altsM, List.mem_append] at hp
    rcases hp with (hp | hp) | hp <;> split_ifs at hp <;> simp_all <;> omega

theorem altsD_rest_length {cs : List Char} {p : Nat × List Char}
    (hp : p ∈ altsD cs) : p.2.length + 1 ≤ cs.length := by
  rcases cs with _ | ⟨a, _ | ⟨b, rest⟩⟩
  · simp [altsD] at hp
  · simp only [altsD] at hp
    split_ifs at hp <;> simp_all
  · simp only [altsD, List.mem_append] at hp
    rcases hp with ((hp | hp) | hp) | hp <;> split_ifs at hp <;> simp_all <;> omega

theorem altsH_rest_length {cs : List Char} {p : Nat × List Char}
    (hp : p ∈ altsH cs) : p.2.length + 1 ≤ cs.length := by
  rcases cs with _ | ⟨a, _ | ⟨b, rest⟩⟩
  · simp [altsH] at hp
  · simp only [altsH] at hp
    split_ifs at hp <;> simp_all
  · simp only [altsH, List.mem_append] at hp
    rcases hp with (hp | hp) | hp <;> split_ifs at hp <;> simp_all <;> omega

theorem altsMin_rest_length {cs : List Char} {p : Nat × List Char}
    (hp : p ∈ altsMin cs) : p.2.length + 1 ≤ cs.length := by
  rcases cs with _ | ⟨a, _ | ⟨b, rest⟩⟩
  · simp [altsMin] at hp
  · simp only [altsMin] at hp
    split_ifs at hp <;> simp_all
  · simp only [altsMin, List.mem_append] at hp
    rcases hp with hp | hp <;> split_ifs at hp <;> simp_all <;> omega

theorem altsS_rest_length {cs : List Char} {p : Nat × List Char}
    (hp : p ∈ altsS cs) : p.2.length + 1 ≤ cs.length := by
  rcases cs with _ | ⟨a, _ | ⟨b, rest⟩⟩
  · simp [altsS] at hp
  · simp only [altsS] at hp
    split_ifs at hp <;> simp_all
  · simp only [altsS, List.mem_append] at hp
    rcases hp with (hp | hp) | hp <;> split_ifs at hp <;> simp_all <;> omega

theorem pY_rest_length {cs r : List Char} {y : Nat}
    (h : pY cs = some (y, r)) : r.length + 4 = cs.length := by
  rcases cs with _ | ⟨a, _ | ⟨b, _ | ⟨c, _ | ⟨d, rest⟩⟩⟩⟩
  · exact absurd h (by simp [pY])
  · exact absurd h (by simp [pY])
  · exact absurd h (by simp [pY])
  · exact absurd h (by simp [pY])
  · simp only [pY] at h
    split_ifs at h
    simp at h
    rw [← h.2]
    simp

theorem expectT_rest_length {cs r : List Char}
    (h : expectT cs = some r) : r.length + 1 = cs.length := by
  rcases cs with _ | ⟨c, rest⟩
  · exact absurd h (by simp [expectT])
  · simp only [expectT] at h
    split_ifs at h
    simp at h
    rw [← h]
    simp

theorem mem_prodRests {α β γ : Type} {xs : List (α × List Char)}
    {f : List Char → List (β × List Char)} {g : α → β → γ} {q : γ × List Char}
    (h : q ∈ prodRests xs f g) :
    ∃ p ∈ xs, ∃ w ∈ f p.2, q = (g p.1 w.1, w.2) := by
  induction xs with
  | nil => simp [prodRests] at h
  | cons p tl ih =>
    simp only [prodRests, List.mem_append, List.mem_map] at h
    rcases h with ⟨w, hw, rfl⟩ | h
    · exact ⟨p, by simp, w, hw, rfl⟩
    · obtain ⟨p', hp', w, hw, rfl⟩ := ih h
      exact ⟨p', by simp [hp'], w, hw, rfl⟩

theorem pDateAlts_rest_length {cs : List Char} {p : (Nat × Nat × Nat) × List Char}
    (h : p ∈ pDateAlts cs) : p.2.length + 6 ≤ cs.length := by
  unfold pDateAlts at h
  split at h
  next => simp at h
  next y r1 hy =>
    obtain ⟨pm, hpm, wd, hwd, rfl⟩ := mem_prodRests h
    have l1 := altsM_rest_length hpm
    have l2 := altsD_rest_length hwd
    have l3 := pY_rest_length hy
    show wd.2.length + 6 ≤ cs.length
    omega

theorem pTimeAlts_rest_length {cs : List Char} {p : (Nat × Nat × Nat) × List Char}
    (h : p ∈ pTimeAlts cs) : p.2.length + 3 ≤ cs.length := by
  unfold pTimeAlts at h
  obtain ⟨ph, hph, w, hw, rfl⟩ := mem_prodRests h
  obtain ⟨pm, hpm, ws, hws, rfl⟩ := mem_prodRests hw
  have l1 := altsH_rest_length hph
  have l2 := altsMin_rest_length hpm
  have l3 := altsS_rest_length hws
  show ws.2.length + 3 ≤ cs.length
  omega

theorem pFullAlts_rest_length {cs : List Char} {p : RawDT × List Char}
    (h : p ∈ pFullAlts cs) : p.2.length + 10 ≤ cs.length := by
  unfold pFullAlts at h
  obtain ⟨pd, hpd, w, hw, rfl⟩ := mem_prodRests h
  have l1 := pDateAlts_rest_length hpd
  unfold afterT at hw
  split at hw
  next => simp at hw
  next r2 he =>
    have l2 := expectT_rest_length he
    have l3 := pTimeAlts_rest_length hw
    show w.2.length + 10 ≤ cs.length
    omega

theorem strptimeZfmt_length {s : String} {dt : DateTimeUTC}
    (h : strptimeZfmt s = some dt) : 11 ≤ s.data.length := by
  unfold strptimeZfmt at h
  split at h
  next p hf =>
    have hmem := List.mem_of_find?_eq_some hf
    have hlen := pFullAlts_rest_length hmem
    have htz0 := List.find?_some hf
    have htz : tailZ p.2 = true := htz0
    have h1 : p.2.length = 1 := by
      unfold tailZ at htz
      simp at htz
      rcases htz with h' | h' <;> simp [h']
    omega
  next => simp at h

theorem strptimeDfmt_midnight {s : String} {dt : DateTimeUTC}
    (h : strptimeDfmt s = some dt) :
    dt.hour = 0 ∧ dt.minute = 0 ∧ dt.second = 0 := by
  unfold strptimeDfmt at h
  split at h
  next p hf =>
    unfold mkDT at h
    split_ifs at h
    simp at h
    rw [← h]
    exact ⟨rfl, rfl, rfl⟩
  next => simp at h

theorem buildEvent_some_fields {cur : List (String × String)} {e : IEvent}
    {sv ev : String} (hb : buildEvent cur = some e)
    (hs : getKey cur "DTSTART" = some sv) (he : getKey cur "DTEND" = some ev) :
    parse_dt sv = some e.start ∧ parse_dt ev = some e.end_ ∧
    e.all_day = (sv.length == 8 && !containsT sv) ∧
    e.title = (match getKey cur "SUMMARY" with
               | some s => if s.isEmpty then "(No title)" else s
               | none => "(No title)") := by
  unfold buildEvent at hb
  rw [hs, he] at hb
  split_ifs at hb
  split at hb
  next ds de hds hde =>
    obtain rfl : sv = ds := Option.some.inj hds
    obtain rfl : ev = de := Option.some.inj hde
    split at hb
    next d1 d2 hp1 hp2 =>
      have hrec := Option.some.inj hb
      subst hrec
      exact ⟨hp1, hp2, rfl, rfl⟩
    next => exact Option.noConfusion hb
  next hcontra => exact (hcontra sv ev rfl rfl).elim

/-- C4: for every emitted event, the raw `DTSTART`/`DTEND` values are
normalized by shape: a value ending in `Z` parses under the
`%Y%m%dT%H%M%SZ` format with UTC attached; a value containing `T` but not
ending in `Z` parses under `%Y%m%dT%H%M%S` with the naive clock time taken
as already UTC — no conversion, so it denotes the same instant as the same
value with an explicit `Z` appended; an 8-character value without `T`
parses as a date-only value at midnight UTC; and `all_day` is true exactly
when the `DTSTART` value is 8 characters long and contains no `T`,
regardless of the `DTEND` value's shape. -/
theorem date_normalization_rules (cur : List (String × String)) (e : IEvent)
    (sv ev : String) (hb : buildEvent cur = some e)
    (hs : getKey cur "DTSTART" = some sv) (he : getKey cur "DTEND" = some ev) :
    e.all_day = (sv.length == 8 && !containsT sv) ∧
    parse_dt sv = some e.start ∧ parse_dt ev = some e.end_ ∧
    (endsWithZ sv = true → strptimeZfmt sv = some e.start) ∧
    (endsWithZ sv = false → containsT sv = true →
        strptimeTfmt sv = some e.start ∧ parse_dt (sv ++ "Z") = some e.start) ∧
    (sv.length = 8 → containsT sv = false →
        strptimeDfmt sv = some e.start ∧
        e.start.hour = 0 ∧ e.start.minute = 0 ∧ e.start.second = 0) := by
  obtain ⟨h1, h2, h3, -⟩ := buildEvent_some_fields hb hs he
  refine ⟨h3, h1, h2, ?_, ?_, ?_⟩
  · intro hz
    rw [← h1]
    unfold parse_dt
    rw [hz]
    simp
  · intro hz hT
    have hpd : parse_dt sv = strptimeTfmt sv := by
      unfold parse_dt
      rw [hz, hT]
      simp
    refine ⟨by rw [← hpd]; exact h1, ?_⟩
    have hend : endsWithZ (sv ++ "Z") = true := by
      unfold endsWithZ
      rw [String.data_append]
      rw [show ("Z" : String).data = ['Z'] from rfl, List.getLast?_concat]
      simp
    unfold parse_dt
    rw [hend]
    simp only [if_true]
    rw [strptime_naive_as_utc, ← hpd]
    exact h1
  · intro h8 hT
    by_cases hz : endsWithZ sv
    · have hpd : parse_dt sv = strptimeZfmt sv := by
        unfold parse_dt
        rw [hz]
        simp
      rw [hpd] at h1
      have hlen := strptimeZfmt_length h1
      have hsl : sv.length = sv.data.length := rfl
      omega
    · have hzf : endsWithZ sv = false := by
        cases hzz : endsWithZ sv
        · rfl
        · exact absurd hzz hz
      have hpd : parse_dt sv = strptimeDfmt sv := by
        unfold parse_dt
        rw [hzf, hT]
        simp
      rw [hpd] at h1
      exact ⟨h1, strptimeDfmt_midnight h1⟩

/-- Closed witness for the date-normalization claim: a block with a naive
`DTSTART:20240115T090000` and a `DTEND:20240115T100000Z` emits an event
whose start is 2024-01-15 09:00:00 UTC, the same instant the value with an
explicit `Z` denotes, and whose `all_day` is false. -/
theorem date_normalization_rules_witness :
    parse_dt "20240115T090000" = some exEventNaive.start ∧
    strptimeTfmt "20240115T090000" = some exEventNaive.start ∧
    parse_dt ("20240115T090000" ++ "Z") = some exEventNaive.start ∧
    exEventNaive.all_day = false := by
  have h := date_normalization_rules exCurNaive exEventNaive
    "20240115T090000" "20240115T100000Z" rfl rfl rfl
  have h5 := h.2.2.2.2.1 rfl rfl
  exact ⟨h.2.1, h5.1, h5.2, h.1.trans rfl⟩

/-- C5 counterexample: the claim's conclusion — that an event with no
`SUMMARY` is stored with the owning source's display name as its title —
is false. Syncing a source named `"Airbnb"` against a feed whose single
block has no `SUMMARY` stores the title `"(No title)"`, not `"Airbnb"`:
the parser has already substituted a truthy literal, so the reconciler's
source-name fallback never fires. -/
theorem no_summary_stored_title_counterexample :
    (syncLoop exFetchNoSummary 0 [exSourceA] [] 0).1.map (fun e => e.title) =
      ["(No title)"] ∧
    exSourceA.name = "Airbnb" ∧ ("(No title)" : String) ≠ "Airbnb" :=
  ⟨rfl, rfl, by decide⟩

/-- C5 amended: the parser emits the literal `"(No title)"` as the title
of an event whose block lacks `SUMMARY`; the reconciler's fallback to the
source's display name applies only when the parsed title is falsy, which
never happens because the parser's title is always nonempty — so an event
with no `SUMMARY` is stored with the title `"(No title)"`, not the
source's name. -/
theorem no_summary_title_fallback (cur : List (String × String)) (e : IEvent)
    (s : CalendarSource) (now : Nat) (hb : buildEvent cur = some e)
    (hsum : getKey cur "SUMMARY" = none) :
    e.title = "(No title)" ∧ (mkStored now s e).title = "(No title)" := by
  cases hsv : getKey cur "DTSTART" with
  | none =>
    unfold buildEvent at hb
    rw [hsv] at hb
    simp [truthy] at hb
  | some sv =>
    cases hev : getKey cur "DTEND" with
    | none =>
      unfold buildEvent at hb
      rw [hev] at hb
      simp [truthy] at hb
    | some ev =>
      have ht := (buildEvent_some_fields hb hsv hev).2.2.2
      rw [hsum] at ht
      have ht' : e.title = "(No title)" := ht
      refine ⟨ht', ?_⟩
      show (if e.title.isEmpty then s.name else e.title) = "(No title)"
      rw [ht', if_neg (by decide : ¬(("(No title)" : String).isEmpty = true))]

/-- Closed witness for the amended title-fallback claim, at the
`SUMMARY`-less block of `exFeedNoSummary`. -/
theorem no_summary_title_fallback_witness :
    exEventNoSummary.title = "(No title)" ∧
    (mkStored 0 exSourceA exEventNoSummary).title = "(No title)" :=
  no_summary_title_fallback exCurNoSummary exEventNoSummary exSourceA 0 rfl rfl

/-- C2 counterexample: the claim — fetch happens before the purge, so a
fetch failure leaves the source's stored events unchanged — is false. With
one stored event for source `s1` and a fetch that always fails, the sync
returns the fetch error but the store has already been emptied. -/
theorem fetch_failure_after_purge_counterexample :
    syncLoop exFetchFail 0 [exSourceA] [exStored0] 0 =
      ([], .error "Failed to fetch iCal: boom") ∧
    ([exStored0] : List StoredEvent) ≠ [] :=
  ⟨rfl, by simp⟩

/-- C2 amended: for each resolved source the reconciler purges that
source's previously stored events BEFORE fetching the feed text (the fetch
happens inside `parse_ical`, after `delete_many`); consequently, when the
fetch for a source fails, the sync aborts with the fetch error and that
source's previously stored events have already been purged — the store is
left exactly as the purge leaves it, with zero events for that source. -/
theorem purge_precedes_fetch (fetch : String → Except String String)
    (now : Nat) (s : CalendarSource) (rest : List CalendarSource)
    (st : List StoredEvent) (e : String) (hf : fetch s.url = .error e) :
    syncLoop fetch now (s :: rest) st 0 =
      (purgeEvents st s.id, .error ("Failed to fetch iCal: " ++ e)) := by
  unfold syncLoop
  rw [hf]

/-- Closed witness for the amended purge-before-fetch claim. -/
theorem purge_precedes_fetch_witness :
    syncLoop exFetchFail 0 [exSourceA] [exStored0] 0 =
      (purgeEvents [exStored0] exSourceA.id, .error "Failed to fetch iCal: boom") :=
  purge_precedes_fetch exFetchFail 0 exSourceA [] [exStored0] "boom" rfl

theorem syncLoop_cons_ok (fetch : String → Except String String) (now : Nat)
    (s : CalendarSource) (rest : List CalendarSource) (st : List StoredEvent)
    (total : Nat) (t : String) (hf : fetch s.url = .ok t) :
    syncLoop fetch now (s :: rest) st total =
      syncLoop fetch now rest
        (purgeEvents st s.id ++ (parse_ical t).map (mkStored now s))
        (total + ((parse_ical t).map (mkStored now s)).length) := by
  have hred : syncLoop fetch now (s :: rest) st total =
      (if ((parse_ical t).map (mkStored now s)).isEmpty then
        syncLoop fetch now rest (purgeEvents st s.id) total
      else
        syncLoop fetch now rest
          (purgeEvents st s.id ++ (parse_ical t).map (mkStored now s))
          (total + ((parse_ical t).map (mkStored now s)).length)) := by
    conv_lhs => unfold syncLoop
    rw [hf]
  rw [hred]
  by_cases hbe : ((parse_ical t).map (mkStored now s)).isEmpty
  · have hnil : (parse_ical t).map (mkStored now s) = [] := by
      simpa using hbe
    rw [if_pos hbe, hnil]
    simp
  · rw [if_neg hbe]

theorem syncLoop_ok_fetches (fetch : String → Except String String) (now : Nat) :
    ∀ (sources : List CalendarSource) (st : List StoredEvent) (total : Nat)
      (st' : List StoredEvent) (n : Nat),
    syncLoop fetch now sources st total = (st', .ok n) →
    ∀ s ∈ sources, ∃ t, fetch s.url = .ok t := by
  intro sources
  induction sources with
  | nil =>
    intro st total st' n h s hs
    simp at hs
  | cons s0 rest ih =>
    intro st total st' n h s hs
    cases hf : fetch s0.url with
    | error e =>
      unfold syncLoop at h
      rw [hf] at h
      simp at h
    | ok t =>
      rcases List.mem_cons.1 hs with rfl | hs'
      · exact ⟨t, hf⟩
      · rw [syncLoop_cons_ok _ _ _ _ _ _ _ hf] at h
        exact ih _ _ _ _ h s hs'

theorem mem_allBatches_source_id {fetch : String → Except String String}
    {now : Nat} :
    ∀ {sources : List CalendarSource} {a : StoredEvent},
    a ∈ allBatches fetch now sources → a.source_id ∈ srcIds sources := by
  intro sources
  induction sources with
  | nil =>
    intro a h
    simp [allBatches] at h
  | cons s rest ih =>
    intro a h
    simp only [allBatches, List.mem_append] at h
    rcases h with h | h
    · unfold batchOf at h
      split at h
      next t ht =>
        obtain ⟨e0, -, rfl⟩ := List.mem_map.1 h
        simp [srcIds, mkStored]
      next => simp at h
    · exact List.mem_cons_of_mem _ (ih h)

theorem allBatches_content_eq (fetch : String → Except String String)
    (now1 now2 : Nat) (sources : List CalendarSource) :
    (allBatches fetch now1 sources).map eventContent =
      (allBatches fetch now2 sources).map eventContent := by
  induction sources with
  | nil => rfl
  | cons s rest ih =>
    simp only [allBatches, List.map_append, ih]
    congr 1
    unfold batchOf
    cases fetch s.url with
    | ok t =>
      simp only [List.map_map]
      rfl
    | error e => rfl

theorem allBatches_length_eq (fetch : String → Except String String)
    (now1 now2 : Nat) (sources : List CalendarSource) :
    (allBatches fetch now1 sources).length = (allBatches fetch now2 sources).length := by
  have h := congrArg List.length (allBatches_content_eq fetch now1 now2 sources)
  simpa using h

theorem syncLoop_shape (fetch : String → Except String String) (now : Nat) :
    ∀ (sources : List CalendarSource) (st : List StoredEvent) (total : Nat),
    (∀ s ∈ sources, ∃ t, fetch s.url = .ok t) →
    (srcIds sources).Nodup →
    syncLoop fetch now sources st total =
      (st.filter (fun e => decide (e.source_id ∉ srcIds sources)) ++
         allBatches fetch now sources,
       .ok (total + (allBatches fetch now sources).length)) := by
  intro sources
  induction sources with
  | nil =>
    intro st total _ _
    simp [syncLoop, allBatches, srcIds]
  | cons s rest ih =>
    intro st total hfetch hnodup
    obtain ⟨t, ht⟩ := hfetch s (by simp)
    have hnd : s.id ∉ srcIds rest ∧ (srcIds rest).Nodup := by
      have : srcIds (s :: rest) = s.id :: srcIds rest := rfl
      rw [this] at hnodup
      exact List.nodup_cons.1 hnodup
    rw [syncLoop_cons_ok _ _ _ _ _ _ _ ht,
      ih _ _ (fun x hx => hfetch x (List.mem_cons_of_mem _ hx)) hnd.2]
    have hstore : (purgeEvents st s.id ++ (parse_ical t).map (mkStored now s)).filter
          (fun e => decide (e.source_id ∉ srcIds rest)) =
        st.filter (fun e => decide (e.source_id ∉ srcIds (s :: rest))) ++
          (parse_ical t).map (mkStored now s) := by
      rw [List.filter_append]
      congr 1
      · unfold purgeEvents
        rw [List.filter_filter]
        apply List.filter_congr
        intro a _
        by_cases h1 : a.source_id = s.id <;>
          by_cases h2 : a.source_id ∈ srcIds rest <;>
          simp [h1, h2, srcIds]
      · apply List.filter_eq_self.2
        intro a ha
        obtain ⟨e0, -, rfl⟩ := List.mem_map.1 ha
        simp [mkStored, hnd.1]
    rw [hstore]
    have hbatch : batchOf fetch now s = (parse_ical t).map (mkStored now s) := by
      unfold batchOf
      rw [ht]
    have hall : allBatches fetch now (s :: rest) =
        (parse_ical t).map (mkStored now s) ++ allBatches fetch now rest := by
      simp [allBatches, hbatch]
    rw [hall]
    simp only [Prod.mk.injEq, Except.ok.injEq, List.length_append]
    constructor
    · rw [List.append_assoc]
    · omega

/-- C7: running the sync twice in a row against an unchanged feed (same
fetch capability) yields the identical success result — same
`sources_synced` and `events_saved` counts — and identical stored event
content: after the second run the store's records coincide with the first
run's records up to the audit timestamps, i.e. the store is exactly the
result of the most recent parse of each source's feed. -/
theorem sync_twice_idempotent (fetch : String → Except String String)
    (now1 now2 : Nat) (sources : List CalendarSource)
    (st st1 : List StoredEvent) (ns : Nat × Nat)
    (hnodup : (srcIds sources).Nodup)
    (h1 : sync_calendars fetch now1 sources st = (st1, .ok ns)) :
    ∃ st2, sync_calendars fetch now2 sources st1 = (st2, .ok ns) ∧
      st2.map eventContent = st1.map eventContent := by
  unfold sync_calendars at h1
  split at h1
  next stA total hl1 =>
    simp only [Prod.mk.injEq, Except.ok.injEq] at h1
    obtain ⟨rfl, rfl⟩ := h1
    have hfetch := syncLoop_ok_fetches fetch now1 sources st 0 stA total hl1
    have hsh1 := syncLoop_shape fetch now1 sources st 0 hfetch hnodup
    rw [hsh1] at hl1
    simp only [Prod.mk.injEq, Except.ok.injEq] at hl1
    obtain ⟨hst, htot⟩ := hl1
    have hsh2 := syncLoop_shape fetch now2 sources stA 0 hfetch hnodup
    have hfilter : stA.filter (fun e => decide (e.source_id ∉ srcIds sources)) =
        st.filter (fun e => decide (e.source_id ∉ srcIds sources)) := by
      rw [← hst, List.filter_append]
      have ha : (st.filter (fun e => decide (e.source_id ∉ srcIds sources))).filter
            (fun e => decide (e.source_id ∉ srcIds sources)) =
          st.filter (fun e => decide (e.source_id ∉ srcIds sources)) :=
        List.filter_eq_self.2 (fun a ha => (List.mem_filter.1 ha).2)
      have hb : (allBatches fetch now1 sources).filter
            (fun e => decide (e.source_id ∉ srcIds sources)) = [] := by
        apply List.filter_eq_nil_iff.2
        intro a ha
        have := mem_allBatches_source_id ha
        simp [this]
      rw [ha, hb, List.append_nil]
    refine ⟨stA.filter (fun e => decide (e.source_id ∉ srcIds sources)) ++
      allBatches fetch now2 sources, ?_, ?_⟩
    · unfold sync_calendars
      rw [hsh2]
      have hlen : (allBatches fetch now2 sources).length =
          (allBatches fetch now1 sources).length :=
        allBatches_length_eq fetch now2 now1 sources
      rw [hlen, htot]
    · rw [List.map_append, hfilter, allBatches_content_eq fetch now2 now1 sources,
        ← List.map_append, hst]
  next stA e hl1 =>
    simp at h1

/-- Closed witness for the idempotent-replace claim: syncing `exSourceA`
against the constant feed `exFeed` a second time, starting from the store
the first sync produced, reports the same counts and the same stored
content. -/
theorem sync_twice_idempotent_witness :
    ∃ st2, sync_calendars exFetchOk 1 [exSourceA]
        [mkStored 0 exSourceA exParsedGuest] = (st2, .ok (1, 1)) ∧
      st2.map eventContent = [mkStored 0 exSourceA exParsedGuest].map eventContent :=
  sync_twice_idempotent exFetchOk 0 1 [exSourceA] []
    [mkStored 0 exSourceA exParsedGuest] (1, 1) (by decide) rfl

theorem syncLoop_abort_on_fetch_error (fetch : String → Except String String)
    (now : Nat) (s : CalendarSource) (post : List CalendarSource) (e : String)
    (hf : fetch s.url = .error e) :
    ∀ (pre : List CalendarSource) (st : List StoredEvent) (total : Nat),
    (∀ x ∈ pre, ∃ t, fetch x.url = .ok t) →
    ∃ st', syncLoop fetch now (pre ++ s :: post) st total =
        (st', .error ("Failed to fetch iCal: " ++ e)) ∧
      ∀ sid, sid ∉ srcIds pre → sid ≠ s.id →
        st'.filter (fun ev => ev.source_id == sid) =
          st.filter (fun ev => ev.source_id == sid) := by
  intro pre
  induction pre with
  | nil =>
    intro st total _
    refine ⟨purgeEvents st s.id, ?_, ?_⟩
    · show syncLoop fetch now (s :: post) st total = _
      conv_lhs => unfold syncLoop
      rw [hf]
    · intro sid _ hne
      unfold purgeEvents
      rw [List.filter_filter]
      apply List.filter_congr
      intro a _
      by_cases h1 : a.source_id = sid <;> simp [h1, hne]
  | cons x pre ih =>
    intro st total hpre
    obtain ⟨t, ht⟩ := hpre x (by simp)
    rw [List.cons_append, syncLoop_cons_ok _ _ _ _ _ _ _ ht]
    obtain ⟨st', hloop, hfix⟩ :=
      ih (purgeEvents st x.id ++ (parse_ical t).map (mkStored now x)) _
        (fun y hy => hpre y (List.mem_cons_of_mem _ hy))
    refine ⟨st', hloop, ?_⟩
    intro sid hnp hns
    have hx : sid ≠ x.id ∧ sid ∉ srcIds pre := by
      have hcons : srcIds (x :: pre) = x.id :: srcIds pre := rfl
      rw [hcons] at hnp
      simp only [List.mem_cons, not_or] at hnp
      exact hnp
    rw [hfix sid hx.2 hns, List.filter_append]
    have hb0 : ((parse_ical t).map (mkStored now x)).filter
        (fun ev => ev.source_id == sid) = [] := by
      apply List.filter_eq_nil_iff.2
      intro a ha
      obtain ⟨e0, -, rfl⟩ := List.mem_map.1 ha
      simp [mkStored, Ne.symm hx.1]
    rw [hb0, List.append_nil]
    unfold purgeEvents
    rw [List.filter_filter]
    apply List.filter_congr
    intro a _
    by_cases h1 : a.source_id = sid <;> simp [h1, hx.1]

/-- C8: during a multi-source sync, when every source before `s` fetches
successfully and the fetch for `s` fails, the whole call aborts with
`"Failed to fetch iCal: ..."` before any source after `s` is processed:
the stored events of every source other than the already-processed prefix
and `s` itself are exactly as before the call, and if the fetch error
message names the failing source's URL (as a requests-style error does),
the reported detail also names that URL. -/
theorem fetch_failure_aborts_batch (fetch : String → Except String String)
    (now : Nat) (pre : List CalendarSource) (s : CalendarSource)
    (post : List CalendarSource) (st : List StoredEvent) (e : String)
    (hpre : ∀ x ∈ pre, ∃ t, fetch x.url = .ok t)
    (hf : fetch s.url = .error e) :
    ∃ st', sync_calendars fetch now (pre ++ s :: post) st =
        (st', .error ("Failed to fetch iCal: " ++ e)) ∧
      (∀ sid, sid ∉ srcIds pre → sid ≠ s.id →
        st'.filter (fun ev => ev.source_id == sid) =
          st.filter (fun ev => ev.source_id == sid)) ∧
      (∀ a b, e = a ++ s.url ++ b →
        ∃ a', "Failed to fetch iCal: " ++ e = a' ++ s.url ++ b) := by
  obtain ⟨st', hloop, hfix⟩ :=
    syncLoop_abort_on_fetch_error fetch now s post e hf pre st 0 hpre
  refine ⟨st', ?_, hfix, ?_⟩
  · unfold sync_calendars
    rw [hloop]
  · intro a b hab
    refine ⟨"Failed to fetch iCal: " ++ a, ?_⟩
    rw [hab, ← String.append_assoc, ← String.append_assoc]

/-- Closed witness for the abort-on-fetch-failure claim: with `exSourceB`
fetching successfully and `exSourceA` failing with a requests-style
message, the two-source sync reports the propagated detail naming
`exSourceA`'s URL. -/
theorem fetch_failure_aborts_batch_witness :
    (sync_calendars exFetchMix 0 ([exSourceB] ++ exSourceA :: []) []).2 =
      .error ("Failed to fetch iCal: " ++ "500 Server Error for url: http://feed-a") ∧
    ∃ a', ("Failed to fetch iCal: " ++ "500 Server Error for url: http://feed-a") =
      a' ++ "http://feed-a" ++ "" := by
  obtain ⟨st', h1, h2, h3⟩ :=
    fetch_failure_aborts_batch exFetchMix 0 [exSourceB] exSourceA [] []
      "500 Server Error for url: http://feed-a"
      (by
        intro x hx
        simp only [List.mem_singleton] at hx
        subst hx
        exact ⟨exFeed, rfl⟩)
      rfl
  exact ⟨by rw [h1], h3 "500 Server Error for url: " "" (by decide)⟩

theorem scanAbsorb (lines : List String) :
    ∀ st : ScanSt, st.in_event = true →
    (∀ l ∈ lines, l ≠ "BEGIN:VEVENT" ∧ l ≠ "END:VEVENT") →
    (lines.foldl scanStep st).in_event = true ∧
    (lines.foldl scanStep st).events = st.events ∧
    ∀ k : String, (∀ l ∈ lines, keyOf l ≠ some k) →
      getKey (lines.foldl scanStep st).cur k = getKey st.cur k := by
  induction lines with
  | nil =>
    intro st hin _
    exact ⟨hin, rfl, fun k _ => rfl⟩
  | cons l ls ih =>
    intro st hin hno
    have hl := hno l (by simp)
    cases hc : breakAt ':' l.data with
    | none =>
      have hstep : scanStep st l = st := by
        simp only [scanStep, if_neg hl.1, if_neg hl.2, hin, if_true, hc]
      rw [List.foldl_cons, hstep]
      obtain ⟨a, b, c⟩ := ih st hin (fun x hx => hno x (List.mem_cons_of_mem _ hx))
      exact ⟨a, b, fun k hk => c k (fun x hx => hk x (List.mem_cons_of_mem _ hx))⟩
    | some kv =>
      have hstep : scanStep st l =
          { st with cur := (String.mk (takeUntil ';' kv.1), String.mk kv.2) :: st.cur } := by
        simp only [scanStep, if_neg hl.1, if_neg hl.2, hin, if_true, hc]
      rw [List.foldl_cons, hstep]
      obtain ⟨hin', hev', hkeys⟩ :=
        ih { st with cur := (String.mk (takeUntil ';' kv.1), String.mk kv.2) :: st.cur }
          hin (fun x hx => hno x (List.mem_cons_of_mem _ hx))
      refine ⟨hin', hev', ?_⟩
      intro k hk
      rw [hkeys k (fun x hx => hk x (List.mem_cons_of_mem _ hx))]
      have hkl : keyOf l ≠ some k := hk l (List.mem_cons_self _ _)
      have hne : k ≠ String.mk (takeUntil ';' kv.1) := by
        intro hh
        apply hkl
        unfold keyOf
        rw [hc]
        simp [hh]
      simp [getKey, hne]

/-- C10: inside a `VEVENT` block, a nested sub-component such as
`BEGIN:VALARM ... END:VALARM` does not terminate the event — only the
exact line `END:VEVENT` closes it. The sub-component's lines are absorbed
into the event's property map as ordinary key/value pairs (in particular
the keys `BEGIN` and `END` end up mapped to `VALARM`) under last-write-wins,
no event is emitted, and every captured property whose key the
sub-component's lines do not write is left intact. -/
theorem nested_component_absorbed (st : ScanSt) (alarm : List String)
    (hin : st.in_event = true)
    (hno : ∀ l ∈ alarm, l ≠ "BEGIN:VEVENT" ∧ l ≠ "END:VEVENT") :
    (("BEGIN:VALARM" :: alarm ++ ["END:VALARM"]).foldl scanStep st).in_event = true ∧
    (("BEGIN:VALARM" :: alarm ++ ["END:VALARM"]).foldl scanStep st).events = st.events ∧
    getKey (("BEGIN:VALARM" :: alarm ++ ["END:VALARM"]).foldl scanStep st).cur "END" =
      some "VALARM" ∧
    ((∀ l ∈ alarm, keyOf l ≠ some "BEGIN") →
      getKey (("BEGIN:VALARM" :: alarm ++ ["END:VALARM"]).foldl scanStep st).cur "BEGIN" =
        some "VALARM") ∧
    (∀ k : String, k ≠ "BEGIN" → k ≠ "END" →
      (∀ l ∈ alarm, keyOf l ≠ some k) →
      getKey (("BEGIN:VALARM" :: alarm ++ ["END:VALARM"]).foldl scanStep st).cur k =
        getKey st.cur k) := by
  have hstep1 : scanStep st "BEGIN:VALARM" =
      { st with cur := ("BEGIN", "VALARM") :: st.cur } := by
    simp only [scanStep, if_neg (by decide : ¬("BEGIN:VALARM" : String) = "BEGIN:VEVENT"),
      if_neg (by decide : ¬("BEGIN:VALARM" : String) = "END:VEVENT"), hin, if_true]
    rfl
  have hmid := scanAbsorb alarm { st with cur := ("BEGIN", "VALARM") :: st.cur } hin hno
  have hfold : ("BEGIN:VALARM" :: alarm ++ ["END:VALARM"]).foldl scanStep st =
      scanStep (alarm.foldl scanStep { st with cur := ("BEGIN", "VALARM") :: st.cur })
        "END:VALARM" := by
    rw [List.foldl_append, List.foldl_cons, List.foldl_cons, List.foldl_nil, hstep1]
  have hstep2 : scanStep (alarm.foldl scanStep { st with cur := ("BEGIN", "VALARM") :: st.cur })
      "END:VALARM" =
      { alarm.foldl scanStep { st with cur := ("BEGIN", "VALARM") :: st.cur } with
        cur := ("END", "VALARM") ::
          (alarm.foldl scanStep { st with cur := ("BEGIN", "VALARM") :: st.cur }).cur } := by
    simp only [scanStep, if_neg (by decide : ¬("END:VALARM" : String) = "BEGIN:VEVENT"),
      if_neg (by decide : ¬("END:VALARM" : String) = "END:VEVENT"), hmid.1, if_true]
    rfl
  rw [hfold, hstep2]
  refine ⟨hmid.1, hmid.2.1, ?_, ?_, ?_⟩
  · simp [getKey]
  · intro hb
    have h1 : getKey (("END", "VALARM") ::
        (alarm.foldl scanStep { st with cur := ("BEGIN", "VALARM") :: st.cur }).cur)
        "BEGIN" = getKey
        (alarm.foldl scanStep { st with cur := ("BEGIN", "VALARM") :: st.cur }).cur
        "BEGIN" := by
      simp [getKey, (by decide : ¬("BEGIN" : String) = "END")]
    rw [h1, hmid.2.2 "BEGIN" hb]
    simp [getKey]
  · intro k hk1 hk2 hk3
    have h1 : getKey (("END", "VALARM") ::
        (alarm.foldl scanStep { st with cur := ("BEGIN", "VALARM") :: st.cur }).cur)
        k = getKey
        (alarm.foldl scanStep { st with cur := ("BEGIN", "VALARM") :: st.cur }).cur
        k := by
      simp [getKey, hk2]
    rw [h1, hmid.2.2 k hk3]
    simp [getKey, hk1]

/-- Closed witness for the nested sub-component claim: a `VALARM`
containing `ACTION:DISPLAY`, scanned inside an open event that captured
`SUMMARY:x`, leaves the scan inside the event with the `SUMMARY` intact
and the `END` key mapped to `VALARM`. -/
theorem nested_component_absorbed_witness :
    ((["BEGIN:VALARM", "ACTION:DISPLAY", "END:VALARM"]).foldl scanStep exStAlarm).in_event
      = true ∧
    getKey ((["BEGIN:VALARM", "ACTION:DISPLAY", "END:VALARM"]).foldl scanStep exStAlarm).cur
      "END" = some "VALARM" ∧
    getKey ((["BEGIN:VALARM", "ACTION:DISPLAY", "END:VALARM"]).foldl scanStep exStAlarm).cur
      "SUMMARY" = some "x" := by
  have h := nested_component_absorbed exStAlarm ["ACTION:DISPLAY"] rfl (by decide)
  exact ⟨h.1, h.2.2.1, h.2.2.2.2 "SUMMARY" (by decide) (by decide) (by decide)⟩
